import Mathlib

/-!
Verification of the BERT training orchestrator in `bert/trainer.py`.

The file shallowly embeds the trainer module:

* the stateless metric helpers `percentage`, `nsp_accuracy` and
  `token_accuracy` become functions over rational score matrices
  (tensors are lists of rows, scores are rationals; the Python
  `round(x, 2)` becomes `round2`);
* the training loop `BertTrainer.train` becomes a recursion over the
  per-batch loss pairs produced by the (external) model, recording the
  progress lines it prints and the loss value it returns;
* `BertTrainer.save_checkpoint` / `load_checkpoint` / `__call__` act on
  an explicit orchestrator state whose checkpoint directory is an
  optional path and whose file system is an association list from file
  names to serialized checkpoint records.

Wall-clock timestamps are passed in explicitly; model and optimizer
snapshots are opaque values copied around verbatim. Floating point is
modelled by exact rational arithmetic; Python rounds floats half to
even, while `round2` rounds half up, a difference no property below
exercises (all rounded values are exact).
-/

/-- Python `round(x, 2)`: round to two decimal places. -/
def round2 (q : ℚ) : ℚ := (round (q * 100) : ℚ) / 100

/-- `torch.argmax` over a vector of scores: index of the first maximal
entry (0 on the empty vector, where torch instead errors; no claim
touches that case). -/
def argmax (l : List ℚ) : ℕ :=
  (List.range l.length).foldl
    (fun best i => if l.getD best 0 < l.getD i 0 then i else best) 0

/-- `percentage(batch_size, max_len, current)` from `trainer.py`:
`batched_max = max_len // batch_size`, result
`round(current / batched_max * 100, 2)`.  Python raises
`ZeroDivisionError` when `batch_size == 0` (at the integer division)
or when `batched_max == 0` (at the true division); both are modelled
by `none`. -/
def percentage (batch_size max_len current : ℕ) : Option ℚ :=
  if batch_size = 0 then none
  else
    let batched_max := max_len / batch_size
    if batched_max = 0 then none
    else some (round2 ((current : ℚ) / (batched_max : ℚ) * 100))

/-- Number of rows on which predicted and target argmax agree:
`(result.argmax(1) == target.argmax(1)).sum()` in `nsp_accuracy`. -/
def nspMatches (result target : List (List ℚ)) : ℕ :=
  (result.zip target).countP (fun rt => argmax rt.1 == argmax rt.2)

/-- `nsp_accuracy(result, target)` from `trainer.py`:
`round(float(s / result.size(0)), 2)` where `s` counts rows with
matching argmax. -/
def nsp_accuracy (result target : List (List ℚ)) : ℚ :=
  round2 ((nspMatches result target : ℚ) / (result.length : ℚ))

/-- The match count of `token_accuracy`: positions `(i, j)` with
`mask[i][j] = false` and `result[i][j].argmax(-1) == target[i][j]`,
exactly what `(r == t).sum()` computes after the two row-major
`masked_select(~mask)` calls. -/
def tokenMatches (result : List (List (List ℚ))) (target : List (List ℕ))
    (mask : List (List Bool)) : ℕ :=
  ((result.zip (target.zip mask)).map (fun row =>
    (row.1.zip (row.2.1.zip row.2.2)).countP
      (fun pos => !pos.2.2 && (argmax pos.1 == pos.2.1)))).sum

/-- `token_accuracy(result, target, mask)` from `trainer.py`:
`round(float(s / (result.size(0) * result.size(1))), 2)` — the
denominator is the full `batch * seq` grid, with
`result.size(1)` the length of the first row. -/
def token_accuracy (result : List (List (List ℚ))) (target : List (List ℕ))
    (mask : List (List Bool)) : ℚ :=
  round2 ((tokenMatches result target mask : ℚ) /
    ((result.length : ℚ) * ((result.headD []).length : ℚ)))

/- ### Generic facts about `round2` -/

theorem round2_eq_of_mul_eq (q : ℚ) (z : ℤ) (h : q * 100 = (z : ℚ)) :
    round2 q = (z : ℚ) / 100 := by
  rw [round2, h, round_intCast]

theorem round2_mono {x y : ℚ} (h : x ≤ y) : round2 x ≤ round2 y := by
  unfold round2
  have h1 : round (x * 100) ≤ round (y * 100) := by
    rw [round_eq, round_eq]
    exact Int.floor_le_floor (by linarith)
  have h2 : ((round (x * 100) : ℤ) : ℚ) ≤ ((round (y * 100) : ℤ) : ℚ) :=
    Int.cast_le.2 h1
  linarith

theorem round2_one : round2 1 = 1 := by
  rw [round2_eq_of_mul_eq 1 100 (by norm_num)]; norm_num

theorem round2_zero : round2 0 = 0 := by
  rw [round2_eq_of_mul_eq 0 0 (by norm_num)]; norm_num

/- ### Claims about `percentage` -/

/-- C4: for every batch_size, dataset_size and current_batch_index with
`dataset_size // batch_size >= 1`, `percentage` returns
`round(current / (dataset_size // batch_size) * 100, 2)`; in
particular `percentage 2 10 3 = 60.0`. -/
theorem c4_percentage_formula :
    (∀ b n c : ℕ, 1 ≤ n / b →
      percentage b n c = some (round2 ((c : ℚ) / ((n / b : ℕ) : ℚ) * 100)))
    ∧ percentage 2 10 3 = some 60 := by
  constructor
  · intro b n c h
    have hb : b ≠ 0 := by rintro rfl; simp [Nat.div_zero] at h
    have hm : n / b ≠ 0 := by omega
    simp [percentage, hb, hm]
  · have h5 : ((10 / 2 : ℕ) : ℚ) = 5 := by norm_num
    have : percentage 2 10 3 = some (round2 ((3 : ℚ) / 5 * 100)) := by
      simp [percentage, h5]
    rw [this, round2_eq_of_mul_eq _ 6000 (by norm_num)]
    norm_num

/-- Witness for C4 at batch_size 2, dataset_size 10, batch index 3. -/
theorem c4_percentage_formula_witness :
    1 ≤ 10 / 2 ∧
      percentage 2 10 3 = some (round2 ((3 : ℚ) / ((10 / 2 : ℕ) : ℚ) * 100)) :=
  ⟨by decide, c4_percentage_formula.1 2 10 3 (by decide)⟩

/-- C7: for fixed batch_size and dataset_size with at least one full
batch, `percentage` is monotone in the batch index, and at index
`dataset_size // batch_size` it equals 100.0. -/
theorem c7_percentage_monotone :
    (∀ b n c c' : ℕ, ∀ q q' : ℚ, c ≤ c' →
      percentage b n c = some q → percentage b n c' = some q' → q ≤ q')
    ∧ (∀ b n : ℕ, 1 ≤ n / b → percentage b n (n / b) = some 100) := by
  constructor
  · intro b n c c' q q' hcc h1 h2
    by_cases hb : b = 0
    · simp [percentage, hb] at h1
    by_cases hm : n / b = 0
    · simp [percentage, hb, hm] at h1
    simp only [percentage, if_neg hb, if_neg hm] at h1 h2
    obtain rfl := Option.some.inj h1
    obtain rfl := Option.some.inj h2
    apply round2_mono
    have hmq : (0 : ℚ) < ((n / b : ℕ) : ℚ) := by
      exact_mod_cast Nat.pos_of_ne_zero hm
    have : ((c : ℚ)) / ((n / b : ℕ) : ℚ) ≤ ((c' : ℚ)) / ((n / b : ℕ) : ℚ) := by
      gcongr
    nlinarith
  · intro b n h
    have hb : b ≠ 0 := by rintro rfl; simp [Nat.div_zero] at h
    have hm : n / b ≠ 0 := by omega
    have hmq : ((n / b : ℕ) : ℚ) ≠ 0 := by exact_mod_cast hm
    simp only [percentage, if_neg hb, if_neg hm]
    rw [div_self hmq, one_mul]
    rw [round2_eq_of_mul_eq _ 10000 (by norm_num)]
    norm_num

/-- Witness for C7: monotonicity between indices 1 and 3 for
batch_size 2, dataset_size 10, and completion at index 5. -/
theorem c7_percentage_monotone_witness :
    (1 ≤ 3 ∧ percentage 2 10 5 = some 100) := by
  refine ⟨by decide, c7_percentage_monotone.2 2 10 (by decide)⟩

/-- C8: `percentage` fails with a division-by-zero error exactly when
`dataset_size // batch_size = 0`: for zero batch_size the integer
division itself fails, for `dataset_size < batch_size` the quotient is
zero; under the precondition `dataset_size // batch_size >= 1` a value
is always returned. -/
theorem c8_percentage_div_zero :
    (∀ b n c : ℕ, n / b = 0 → percentage b n c = none)
    ∧ (∀ n c : ℕ, percentage 0 n c = none)
    ∧ (∀ b n c : ℕ, n < b → percentage b n c = none)
    ∧ (∀ b n c : ℕ, 1 ≤ n / b → ∃ q, percentage b n c = some q) := by
  refine ⟨?_, ?_, ?_, ?_⟩
  · intro b n c h
    by_cases hb : b = 0
    · simp [percentage, hb]
    · simp [percentage, hb, h]
  · intro n c; simp [percentage]
  · intro b n c h
    have hb : b ≠ 0 := by omega
    simp [percentage, hb, Nat.div_eq_of_lt h]
  · intro b n c h
    have hb : b ≠ 0 := by rintro rfl; simp [Nat.div_zero] at h
    have hm : n / b ≠ 0 := by omega
    refine ⟨round2 ((c : ℚ) / ((n / b : ℕ) : ℚ) * 100), ?_⟩
    simp [percentage, hb, hm]

/-- Witness for C8: concrete failing and succeeding inputs. -/
theorem c8_percentage_div_zero_witness :
    ((5 : ℕ) / 8 = 0 ∧ percentage 8 5 2 = none)
    ∧ percentage 0 5 2 = none
    ∧ (5 < 8 ∧ percentage 8 5 2 = none)
    ∧ (1 ≤ 10 / 2 ∧ ∃ q, percentage 2 10 3 = some q) :=
  ⟨⟨by decide, c8_percentage_div_zero.1 8 5 2 (by decide)⟩,
   c8_percentage_div_zero.2.1 5 2,
   ⟨by decide, c8_percentage_div_zero.2.2.1 8 5 2 (by decide)⟩,
   ⟨by decide, c8_percentage_div_zero.2.2.2 2 10 3 (by decide)⟩⟩

/- ### Claims about the accuracy metrics -/

theorem nspMatches_eq_length {result target : List (List ℚ)}
    (h : List.Forall₂ (fun r t => argmax r = argmax t) result target) :
    nspMatches result target = result.length := by
  obtain ⟨hlen, hmem⟩ := List.forall₂_iff_zip.mp h
  have hzlen : (result.zip target).length = result.length := by
    rw [List.length_zip, hlen, min_self]
  rw [nspMatches, ← hzlen, List.countP_eq_length]
  intro a ha
  have := hmem (a := a.1) (b := a.2) ha
  simpa using this

theorem nspMatches_eq_zero {result target : List (List ℚ)}
    (h : List.Forall₂ (fun r t => argmax r ≠ argmax t) result target) :
    nspMatches result target = 0 := by
  obtain ⟨hlen, hmem⟩ := List.forall₂_iff_zip.mp h
  rw [nspMatches, List.countP_eq_zero]
  intro a ha
  have := hmem (a := a.1) (b := a.2) ha
  simpa using this

/-- C5: `nsp_accuracy` is the fraction of rows on which the predicted
argmax equals the target argmax, rounded to 2 decimals; it is 1.0 when
they agree on every row and 0.0 when they agree on no row. -/
theorem c5_nsp_accuracy :
    (∀ result target : List (List ℚ),
      nsp_accuracy result target
        = round2 ((nspMatches result target : ℚ) / (result.length : ℚ)))
    ∧ (∀ result target : List (List ℚ), result ≠ [] →
        List.Forall₂ (fun r t => argmax r = argmax t) result target →
        nsp_accuracy result target = 1)
    ∧ (∀ result target : List (List ℚ), result ≠ [] →
        List.Forall₂ (fun r t => argmax r ≠ argmax t) result target →
        nsp_accuracy result target = 0) := by
  refine ⟨fun _ _ => rfl, ?_, ?_⟩
  · intro result target hne h
    have hl : (result.length : ℚ) ≠ 0 := by
      exact_mod_cast fun h0 => hne (List.length_eq_zero.mp h0)
    rw [nsp_accuracy, nspMatches_eq_length h, div_self hl, round2_one]
  · intro result target hne h
    rw [nsp_accuracy, nspMatches_eq_zero h]
    rw [Nat.cast_zero, zero_div, round2_zero]

/-- Witness for C5: perfect agreement on a 2-row input gives 1.0,
total disagreement on a 1-row input gives 0.0. -/
theorem c5_nsp_accuracy_witness :
    (([[0, 1], [1, 0]] : List (List ℚ)) ≠ [] ∧
      nsp_accuracy [[0, 1], [1, 0]] [[0, 2], [3, 0]] = 1)
    ∧ (([[1, 0]] : List (List ℚ)) ≠ [] ∧
      nsp_accuracy [[1, 0]] [[0, 1]] = 0) :=
  ⟨⟨by decide,
    c5_nsp_accuracy.2.1 [[0, 1], [1, 0]] [[0, 2], [3, 0]] (by decide)
      (List.Forall₂.cons (by decide)
        (List.Forall₂.cons (by decide) List.Forall₂.nil))⟩,
   ⟨by decide,
    c5_nsp_accuracy.2.2 [[1, 0]] [[0, 1]] (by decide)
      (List.Forall₂.cons (by decide) List.Forall₂.nil)⟩⟩

theorem tokenRow_count_allfalse {rowR : List (List ℚ)} {rowT : List ℕ}
    (h : List.Forall₂ (fun c t => argmax c = t) rowR rowT) :
    (rowR.zip (rowT.zip (List.replicate rowR.length false))).countP
      (fun pos => !pos.2.2 && (argmax pos.1 == pos.2.1)) = rowR.length := by
  induction h with
  | nil => rfl
  | @cons a b l₁ l₂ hab hl ih =>
    simp only [List.length_cons, List.replicate_succ, List.zip_cons_cons,
      List.countP_cons, ih]
    simp [hab]

theorem tokenMatches_allfalse {R : List (List (List ℚ))} {T : List (List ℕ)}
    {L : ℕ} (hrows : ∀ row ∈ R, row.length = L)
    (h : List.Forall₂ (List.Forall₂ (fun c t => argmax c = t)) R T) :
    tokenMatches R T (List.replicate R.length (List.replicate L false))
      = R.length * L := by
  induction h with
  | nil => simp [tokenMatches]
  | @cons r t R' T' hrt h2 ih =>
    have hr : r.length = L := hrows r (List.mem_cons_self _ _)
    have ihx := ih (fun row hm => hrows row (List.mem_cons_of_mem _ hm))
    have hhead := tokenRow_count_allfalse hrt
    rw [hr] at hhead
    simp only [tokenMatches, List.length_cons, List.replicate_succ,
      List.zip_cons_cons, List.map_cons, List.sum_cons] at ihx ⊢
    rw [hhead, ihx]
    ring

theorem tokenMatches_alltrue {R : List (List (List ℚ))} {T : List (List ℕ)}
    {M : List (List Bool)} (hmask : ∀ row ∈ M, ∀ x ∈ row, x = true) :
    tokenMatches R T M = 0 := by
  rw [tokenMatches]
  apply List.sum_eq_zero
  intro x hx
  obtain ⟨row, hrow, rfl⟩ := List.mem_map.mp hx
  rw [List.countP_eq_zero]
  intro pos hpos
  have h1 : row.2 ∈ T.zip M := (List.of_mem_zip hrow).2
  have h2 : row.2.2 ∈ M := (List.of_mem_zip h1).2
  have h3 : pos.2 ∈ row.2.1.zip row.2.2 := (List.of_mem_zip hpos).2
  have h4 : pos.2.2 ∈ row.2.2 := (List.of_mem_zip h3).2
  have := hmask _ h2 _ h4
  simp [this]

/-- C2: `token_accuracy` counts argmax matches only at positions where
the ignore mask is false but divides by the full
`batch_size * sequence_length` grid (rounded to 2 decimals); with an
all-false mask and argmax equal to the target everywhere it returns
1.0, and with an all-true mask it returns 0.0. -/
theorem c2_token_accuracy :
    (∀ (result : List (List (List ℚ))) (target : List (List ℕ))
        (mask : List (List Bool)),
      token_accuracy result target mask
        = round2 ((tokenMatches result target mask : ℚ) /
            ((result.length : ℚ) * ((result.headD []).length : ℚ))))
    ∧ (∀ (result : List (List (List ℚ))) (target : List (List ℕ)) (L : ℕ),
        result ≠ [] → 0 < L → (∀ row ∈ result, row.length = L) →
        List.Forall₂ (List.Forall₂ (fun cell t => argmax cell = t))
          result target →
        token_accuracy result target
          (List.replicate result.length (List.replicate L false)) = 1)
    ∧ (∀ (result : List (List (List ℚ))) (target : List (List ℕ))
        (mask : List (List Bool)),
        result ≠ [] → 0 < (result.headD []).length →
        (∀ row ∈ mask, ∀ x ∈ row, x = true) →
        token_accuracy result target mask = 0) := by
  refine ⟨fun _ _ _ => rfl, ?_, ?_⟩
  · intro result target L hne hL hrows h
    have hhead : (result.headD []).length = L := by
      cases result with
      | nil => exact absurd rfl hne
      | cons r rs => exact hrows r (List.mem_cons_self _ _)
    have hb : (result.length : ℚ) ≠ 0 := by
      exact_mod_cast fun h0 => hne (List.length_eq_zero.mp h0)
    have hLq : ((L : ℚ)) ≠ 0 := by exact_mod_cast hL.ne'
    rw [token_accuracy, tokenMatches_allfalse hrows h, hhead]
    push_cast
    rw [div_self (by exact mul_ne_zero hb hLq), round2_one]
  · intro result target mask hne hL hmask
    rw [token_accuracy, tokenMatches_alltrue hmask]
    rw [Nat.cast_zero, zero_div, round2_zero]

/-- Witness for C2: a 1 x 2 grid with perfect predictions scores 1.0
under the all-false mask and 0.0 under the all-true mask. -/
theorem c2_token_accuracy_witness :
    (([[[1, 0], [0, 2]]] : List (List (List ℚ))) ≠ [] ∧ 0 < 2 ∧
      token_accuracy [[[1, 0], [0, 2]]] [[0, 1]]
        (List.replicate 1 (List.replicate 2 false)) = 1)
    ∧ (([[[1, 0], [0, 2]]] : List (List (List ℚ))) ≠ [] ∧
      token_accuracy [[[1, 0], [0, 2]]] [[0, 1]] [[true, true]] = 0) :=
  ⟨⟨by decide, by decide,
    c2_token_accuracy.2.1 [[[1, 0], [0, 2]]] [[0, 1]] 2 (by decide)
      (by decide) (by decide)
      (List.Forall₂.cons
        (List.Forall₂.cons (by decide)
          (List.Forall₂.cons (by decide) List.Forall₂.nil))
        List.Forall₂.nil)⟩,
   ⟨by decide,
    c2_token_accuracy.2.2 [[[1, 0], [0, 2]]] [[0, 1]] [[true, true]]
      (by decide) (by decide) (by decide)⟩⟩

/- ### The training loop -/

/-- The two loss components a batch contributes inside
`BertTrainer.train`: `loss_nsp = criterion(nsp, nsp_target)` and
`loss_token = ml_criterion(...)`.  The losses themselves are produced
by the external model and loss modules, so the loop is verified for
arbitrary per-batch values. -/
structure BatchLoss where
  nsp : ℚ
  mlm : ℚ
deriving DecidableEq

/-- One progress emission of `BertTrainer.train`: the printed line and
the two `writer.add_scalar` loss records share the logged average
losses and the global step (wall-clock time and the displayed
percentage are not modelled). -/
structure ProgressLine where
  global_step : ℕ
  nsp_loss : ℚ
  mlm_loss : ℚ
deriving DecidableEq

/-- The batch loop of `BertTrainer.train`, epoch fixed: `i` enumerates
batches from 0 (`index = i + 1`), `accN`/`accM` are
`average_nsp_loss`/`average_mlm_loss`, `last` is the current value of
the loop variable `loss` (`none` before the first batch, when the
Python name is still unbound).  `N` is `len(self.loader)` as used in
`global_step = epoch * len(self.loader) + index`.  Every
`print_progress_every` batches a progress line with the interval
averages is recorded and both accumulators reset to zero. -/
def trainGo (epoch p N : ℕ) :
    List BatchLoss → ℕ → ℚ → ℚ → Option ℚ → List ProgressLine × Option ℚ
  | [], _, _, _, last => ([], last)
  | b :: rest, i, accN, accM, _ =>
    let index := i + 1
    let accN' := accN + b.nsp
    let accM' := accM + b.mlm
    let loss := b.mlm + b.nsp
    if index % p = 0 then
      let r := trainGo epoch p N rest index 0 0 (some loss)
      (⟨epoch * N + index, accN' / (p : ℚ), accM' / (p : ℚ)⟩ :: r.1, r.2)
    else
      trainGo epoch p N rest index accN' accM' (some loss)

/-- `BertTrainer.train(epoch)` over the batches the loader yields this
epoch: the recorded progress lines together with the value the method
returns (`none` models the `NameError` on `return loss` when the
loader was empty). -/
def train (epoch p : ℕ) (bs : List BatchLoss) :
    List ProgressLine × Option ℚ :=
  trainGo epoch p bs.length bs 0 0 0 none

/-- The loss value `run` hands to `save_checkpoint` after an epoch
(defaulted for the empty-loader case, in which `run` aborts before
saving anyway). -/
def trainLoss (epoch p : ℕ) (bs : List BatchLoss) : ℚ :=
  ((train epoch p bs).2).getD 0

/-- Sum of the `nsp` components of the `k`-th block of `p` batches. -/
def blockNsp (bs : List BatchLoss) (p k : ℕ) : ℚ :=
  (((bs.drop (k * p)).take p).map BatchLoss.nsp).sum

/-- Sum of the `mlm` components of the `k`-th block of `p` batches. -/
def blockMlm (bs : List BatchLoss) (p k : ℕ) : ℚ :=
  (((bs.drop (k * p)).take p).map BatchLoss.mlm).sum

/- ### Checkpoints and the orchestrator state -/

/-- The serialized record `torch.save` writes in `save_checkpoint`:
`{'epoch': ..., 'model_state_dict': ..., 'optimizer_state_dict': ...,
'loss': ...}`.  Model and optimizer snapshots are opaque. -/
structure Checkpoint where
  epoch : ℕ
  model_state_dict : ℕ
  optimizer_state_dict : ℕ
  loss : ℚ
deriving DecidableEq

/-- `f"bert_epoch{epoch}_step{step}_{timestamp:.0f}.pt"`. -/
def checkpointName (epoch : ℕ) (step : ℤ) (t : ℕ) : String :=
  "bert_epoch" ++ toString epoch ++ "_step" ++ toString step ++ "_"
    ++ toString t ++ ".pt"

/-- The checkpoint directory as an association list from file names to
records; writing creates the file or overwrites one with the same
name, as the file system does. -/
def writeFile (st : List (String × Checkpoint)) (name : String)
    (c : Checkpoint) : List (String × Checkpoint) :=
  if st.any (fun q => q.1 == name) then
    st.map (fun q => if q.1 == name then (name, c) else q)
  else st ++ [(name, c)]

/-- `torch.load(path)` from the modelled directory. -/
def lookupStore (st : List (String × Checkpoint)) (path : String) :
    Option Checkpoint :=
  (st.find? (fun q => q.1 == path)).map Prod.snd

/-- The orchestrator state of `BertTrainer`: the fields of `__init__`
the claims depend on, plus the checkpoint directory contents.
`checkpoint_dir = none` models the default `checkpoint_dir=None`. -/
structure TrainerState where
  current_epoch : ℕ
  epochs : ℕ
  print_every : ℕ
  checkpoint_dir : Option String
  model_state : ℕ
  optimizer_state : ℕ
  store : List (String × Checkpoint)
deriving DecidableEq

/-- `BertTrainer.save_checkpoint(epoch, step, loss)` at timestamp `t`:
returns immediately when no checkpoint directory is configured,
otherwise writes the serialized record under the generated name. -/
def save_checkpoint (s : TrainerState) (epoch : ℕ) (step : ℤ) (loss : ℚ)
    (t : ℕ) : TrainerState :=
  match s.checkpoint_dir with
  | none => s
  | some _ =>
    let c : Checkpoint := ⟨epoch, s.model_state, s.optimizer_state, loss⟩
    { s with store := writeFile s.store (checkpointName epoch step t) c }

/-- `BertTrainer.load_checkpoint(path)`: deserializes the record at
`path` (propagating failure when the file is missing), restores model
and optimizer state in place and sets `current_epoch` from the stored
value. -/
def load_checkpoint (s : TrainerState) (path : String) :
    Option TrainerState :=
  match lookupStore s.store path with
  | none => none
  | some c => some { s with
      current_epoch := c.epoch
      model_state := c.model_state_dict
      optimizer_state := c.optimizer_state_dict }

/-- Observable actions of `BertTrainer.__call__`: one `train` call and
one `save_checkpoint` call per epoch. -/
inductive RunEvent where
  | trainEv (epoch : ℕ) (lines : List ProgressLine)
  | saveEv (epoch : ℕ) (step : ℤ) (loss : ℚ)
deriving DecidableEq

/-- The loop of `__call__`: `for self.current_epoch in
range(self.current_epoch, self.epochs)`, running `fuel = stop - start`
iterations from epoch `e`.  Each iteration sets `current_epoch`, runs
`train`, and saves a checkpoint with `step=-1` and the returned loss;
an epoch whose loader yields no batches aborts the run with the
`NameError` from `train` (`none`). -/
def runAux (lossesOf : ℕ → List BatchLoss) (ts : ℕ → ℕ) :
    ℕ → ℕ → TrainerState → Option (TrainerState × List RunEvent)
  | 0, _, s => some (s, [])
  | fuel + 1, e, s =>
    let s1 : TrainerState := { s with current_epoch := e }
    let tr := train e s1.print_every (lossesOf e)
    match tr.2 with
    | none => none
    | some loss =>
      let s2 := save_checkpoint s1 e (-1) loss (ts e)
      match runAux lossesOf ts fuel (e + 1) s2 with
      | none => none
      | some (s3, evs) =>
        some (s3, RunEvent.trainEv e tr.1 :: RunEvent.saveEv e (-1) loss :: evs)

/-- `BertTrainer.__call__()`: iterate epochs from the current value of
`current_epoch` up to `epochs` (exclusive), given the batches the
loader yields each epoch and the wall clock at each save. -/
def run (lossesOf : ℕ → List BatchLoss) (ts : ℕ → ℕ) (s : TrainerState) :
    Option (TrainerState × List RunEvent) :=
  runAux lossesOf ts (s.epochs - s.current_epoch) s.current_epoch s

/- ### C9: the value `train` returns -/

theorem trainGo_cons (epoch p N : ℕ) (b : BatchLoss) (rest : List BatchLoss)
    (i : ℕ) (accN accM : ℚ) (l : Option ℚ) :
    trainGo epoch p N (b :: rest) i accN accM l =
      if (i + 1) % p = 0 then
        (⟨epoch * N + (i + 1), (accN + b.nsp) / (p : ℚ),
            (accM + b.mlm) / (p : ℚ)⟩
          :: (trainGo epoch p N rest (i + 1) 0 0 (some (b.mlm + b.nsp))).1,
         (trainGo epoch p N rest (i + 1) 0 0 (some (b.mlm + b.nsp))).2)
      else trainGo epoch p N rest (i + 1) (accN + b.nsp) (accM + b.mlm)
        (some (b.mlm + b.nsp)) := rfl

theorem trainGo_snd_ne (epoch p N : ℕ) :
    ∀ (bs : List BatchLoss) (h : bs ≠ []) (i : ℕ) (accN accM : ℚ)
      (l : Option ℚ),
    (trainGo epoch p N bs i accN accM l).2
      = some ((bs.getLast h).mlm + (bs.getLast h).nsp) := by
  intro bs
  induction bs with
  | nil => intro h; exact absurd rfl h
  | cons b rest ih =>
    intro h i accN accM l
    cases rest with
    | nil =>
      by_cases hp : (i + 1) % p = 0 <;>
        rw [trainGo_cons] <;> simp [trainGo, hp]
    | cons b2 rest2 =>
      have h2 : (b2 :: rest2 : List BatchLoss) ≠ [] := List.cons_ne_nil _ _
      rw [List.getLast_cons h2]
      by_cases hp : (i + 1) % p = 0
      · rw [trainGo_cons, if_pos hp]
        exact ih h2 _ _ _ _
      · rw [trainGo_cons, if_neg hp]
        exact ih h2 _ _ _ _

theorem train_snd_eq (epoch p : ℕ) (bs : List BatchLoss) (h : bs ≠ []) :
    (train epoch p bs).2 = some (trainLoss epoch p bs) := by
  have hx := trainGo_snd_ne epoch p bs.length bs h 0 0 0 none
  rw [train, trainLoss, train, hx]
  rfl

/-- C9: when the loader yields at least one batch, `train` returns the
total loss (token loss plus pair loss) of the last processed batch;
with zero batches it fails at `return loss` with an unbound-variable
error instead of returning a value. -/
theorem c9_train_return :
    (∀ (epoch p : ℕ) (bs : List BatchLoss) (h : bs ≠ []),
      (train epoch p bs).2 = some ((bs.getLast h).mlm + (bs.getLast h).nsp))
    ∧ (∀ epoch p : ℕ, (train epoch p ([] : List BatchLoss)).2 = none) := by
  refine ⟨?_, fun _ _ => rfl⟩
  intro epoch p bs h
  exact trainGo_snd_ne epoch p bs.length bs h 0 0 0 none

/-- Witness for C9 on a one-batch epoch. -/
theorem c9_train_return_witness :
    ([⟨1, 2⟩] : List BatchLoss) ≠ [] ∧
      (train 0 2 [⟨1, 2⟩]).2
        = some ((([⟨1, 2⟩] : List BatchLoss).getLast
              (List.cons_ne_nil _ _)).mlm
            + (([⟨1, 2⟩] : List BatchLoss).getLast
              (List.cons_ne_nil _ _)).nsp) :=
  ⟨List.cons_ne_nil _ _,
   c9_train_return.1 0 2 [⟨1, 2⟩] (List.cons_ne_nil _ _)⟩

/- ### C3: cadence and content of the progress lines -/

theorem mod_succ_eq_succ_mod {i p : ℕ} (h : i % p + 1 < p) :
    (i + 1) % p = i % p + 1 := by
  have hp : 1 < p := by omega
  rw [Nat.add_mod, Nat.mod_eq_of_lt hp]
  exact Nat.mod_eq_of_lt (by omega)

theorem mod_succ_eq_zero {i p : ℕ} (h : i % p + 1 = p) : (i + 1) % p = 0 := by
  by_cases hp1 : p = 1
  · subst hp1; simp [Nat.mod_one]
  · have hp2 : 1 < p := by omega
    rw [Nat.add_mod, Nat.mod_eq_of_lt hp2, h, Nat.mod_self]

theorem trainGo_fst_last_irrel (epoch p N : ℕ) (bs : List BatchLoss)
    (i : ℕ) (accN accM : ℚ) (l l' : Option ℚ) :
    (trainGo epoch p N bs i accN accM l).1
      = (trainGo epoch p N bs i accN accM l').1 := by
  cases bs with
  | nil => rfl
  | cons b rest => rw [trainGo_cons, trainGo_cons]

theorem trainGo_fst_no_line (epoch p N : ℕ) :
    ∀ (r : List BatchLoss) (i : ℕ) (accN accM : ℚ) (l : Option ℚ),
    i % p + r.length < p →
    (trainGo epoch p N r i accN accM l).1 = [] := by
  intro r
  induction r with
  | nil => intro i accN accM l _; rfl
  | cons b rest ih =>
    intro i accN accM l hlt
    simp only [List.length_cons] at hlt
    have hmod : (i + 1) % p = i % p + 1 := mod_succ_eq_succ_mod (by omega)
    rw [trainGo_cons, if_neg (by rw [hmod]; omega)]
    exact ih _ _ _ _ (by rw [hmod]; omega)

theorem trainGo_fst_block (epoch p N : ℕ) :
    ∀ (blk : List BatchLoss), blk ≠ [] →
    ∀ (rest : List BatchLoss) (i : ℕ) (accN accM : ℚ) (l : Option ℚ),
    i % p + blk.length = p →
    (trainGo epoch p N (blk ++ rest) i accN accM l).1 =
      ⟨epoch * N + (i + blk.length),
        (accN + (blk.map BatchLoss.nsp).sum) / (p : ℚ),
        (accM + (blk.map BatchLoss.mlm).sum) / (p : ℚ)⟩
      :: (trainGo epoch p N rest (i + blk.length) 0 0 none).1 := by
  intro blk
  induction blk with
  | nil => intro h; exact absurd rfl h
  | cons b blk2 ih =>
    intro _ rest i accN accM l hsum
    simp only [List.length_cons] at hsum
    cases blk2 with
    | nil =>
      have hp0 : (i + 1) % p = 0 := mod_succ_eq_zero (by simpa using hsum)
      rw [List.cons_append, List.nil_append, trainGo_cons, if_pos hp0]
      dsimp only
      rw [trainGo_fst_last_irrel epoch p N rest (i + 1) 0 0
        (some (b.mlm + b.nsp)) none]
      simp
    | cons b2 blk3 =>
      simp only [List.length_cons] at hsum
      have hmod : (i + 1) % p = i % p + 1 := mod_succ_eq_succ_mod (by omega)
      rw [List.cons_append, trainGo_cons, if_neg (by rw [hmod]; omega)]
      have hsum2 : (i + 1) % p + (b2 :: blk3).length = p := by
        rw [hmod]; simp only [List.length_cons]; omega
      rw [ih (List.cons_ne_nil _ _) rest (i + 1) (accN + b.nsp)
        (accM + b.mlm) (some (b.mlm + b.nsp)) hsum2]
      have hlen : i + 1 + (b2 :: blk3).length = i + (b :: b2 :: blk3).length := by
        simp only [List.length_cons]; omega
      rw [hlen]
      have hnsp : accN + b.nsp + ((b2 :: blk3).map BatchLoss.nsp).sum
          = accN + ((b :: b2 :: blk3).map BatchLoss.nsp).sum := by
        simp only [List.map_cons, List.sum_cons]; ring
      have hmlm : accM + b.mlm + ((b2 :: blk3).map BatchLoss.mlm).sum
          = accM + ((b :: b2 :: blk3).map BatchLoss.mlm).sum := by
        simp only [List.map_cons, List.sum_cons]; ring
      rw [hnsp, hmlm]

theorem trainGo_fst_blocks (epoch p N : ℕ) (hp : 0 < p) :
    ∀ (n : ℕ) (bs : List BatchLoss), bs.length = n → ∀ (m : ℕ),
    (trainGo epoch p N bs (m * p) 0 0 none).1 =
      (List.range (bs.length / p)).map (fun k =>
        ⟨epoch * N + (m + k + 1) * p, blockNsp bs p k / (p : ℚ),
          blockMlm bs p k / (p : ℚ)⟩) := by
  intro n
  induction n using Nat.strong_induction_on with
  | _ n ih =>
    intro bs hlen m
    by_cases hsmall : bs.length < p
    · rw [trainGo_fst_no_line epoch p N bs (m * p) 0 0 none
        (by rw [Nat.mul_mod_left]; omega)]
      rw [Nat.div_eq_of_lt hsmall]
      rfl
    · push_neg at hsmall
      have htlen : (bs.take p).length = p := by rw [List.length_take]; omega
      have hne : bs.take p ≠ [] := by
        intro h0; rw [h0] at htlen; simp at htlen; omega
      conv_lhs => rw [← List.take_append_drop p bs]
      rw [trainGo_fst_block epoch p N (bs.take p) hne (bs.drop p) (m * p)
        0 0 none (by rw [Nat.mul_mod_left, htlen]; omega)]
      rw [htlen]
      have hstep : m * p + p = (m + 1) * p := by ring
      rw [hstep]
      rw [ih (bs.length - p) (by omega) (bs.drop p)
        (by rw [List.length_drop]) (m + 1)]
      rw [List.length_drop]
      rw [show bs.length / p = (bs.length - p) / p + 1 from
        Nat.div_eq_sub_div hp hsmall]
      rw [List.range_succ_eq_map, List.map_cons, List.map_map]
      congr 1
      · simp [blockNsp, blockMlm]
      · apply List.map_congr_left
        intro k hk
        simp only [Function.comp_apply]
        have hblockN : blockNsp (bs.drop p) p k = blockNsp bs p (k + 1) := by
          rw [blockNsp, blockNsp, List.drop_drop,
            show p + k * p = (k + 1) * p from by ring]
        have hblockM : blockMlm (bs.drop p) p k = blockMlm bs p (k + 1) := by
          rw [blockMlm, blockMlm, List.drop_drop,
            show p + k * p = (k + 1) * p from by ring]
        rw [hblockN, hblockM]
        have harith : m + 1 + k + 1 = m + Nat.succ k + 1 := by omega
        rw [harith]

theorem train_fst_blocks (epoch p : ℕ) (bs : List BatchLoss) (hp : 0 < p) :
    (train epoch p bs).1 =
      (List.range (bs.length / p)).map (fun k =>
        ⟨epoch * bs.length + (k + 1) * p, blockNsp bs p k / (p : ℚ),
          blockMlm bs p k / (p : ℚ)⟩) := by
  rw [train, show (0 : ℕ) = 0 * p from (Nat.zero_mul p).symm,
    trainGo_fst_blocks epoch p bs.length hp bs.length bs rfl 0]
  simp only [Nat.zero_add]

/-- C3: during `train(epoch)` a progress line is emitted exactly on the
batches whose 1-based index is a multiple of `print_progress_every`;
its logged losses are the per-objective sums accumulated since the
last tick divided by `print_progress_every` (the accumulators being
reset at each tick), and its global step is
`epoch * batches_per_epoch + index`.  In particular an epoch of 4
batches with `print_progress_every = 2` emits exactly 2 lines, with
global steps `epoch*4+2` and `epoch*4+4`. -/
theorem c3_progress_cadence :
    (∀ (epoch p : ℕ) (bs : List BatchLoss), 0 < p →
      (train epoch p bs).1 =
        (List.range (bs.length / p)).map (fun k =>
          ⟨epoch * bs.length + (k + 1) * p, blockNsp bs p k / (p : ℚ),
            blockMlm bs p k / (p : ℚ)⟩))
    ∧ (∀ (epoch : ℕ) (a b c d : BatchLoss),
        (train epoch 2 [a, b, c, d]).1 =
          [⟨epoch * 4 + 2, (a.nsp + b.nsp) / 2, (a.mlm + b.mlm) / 2⟩,
           ⟨epoch * 4 + 4, (c.nsp + d.nsp) / 2, (c.mlm + d.mlm) / 2⟩]) := by
  refine ⟨fun epoch p bs hp => train_fst_blocks epoch p bs hp, ?_⟩
  intro epoch a b c d
  rw [train_fst_blocks epoch 2 [a, b, c, d] (by norm_num)]
  rw [show ([a, b, c, d] : List BatchLoss).length / 2 = 2 by simp]
  rw [show List.range 2 = [0, 1] by decide]
  simp [blockNsp, blockMlm]

/-- Witness for C3 instantiating the cadence theorem at a concrete
print interval. -/
theorem c3_progress_cadence_witness :
    (0 : ℕ) < 2 ∧
      (train 0 2 ([] : List BatchLoss)).1 =
        (List.range (([] : List BatchLoss).length / 2)).map (fun k =>
          ⟨0 * ([] : List BatchLoss).length + (k + 1) * 2,
            blockNsp [] 2 k / (2 : ℚ), blockMlm [] 2 k / (2 : ℚ)⟩) :=
  ⟨by decide, c3_progress_cadence.1 0 2 [] (by decide)⟩

/- ### C6: frame effect of `save_checkpoint` -/

/-- C6: with no checkpoint directory configured, `save_checkpoint` is a
complete no-op; otherwise it appends exactly one new record (epoch,
model state, optimizer state, loss) under the generated file name,
touching no other orchestrator state and neither overwriting nor
removing any existing checkpoint (the generated name, which embeds the
wall-clock timestamp, being fresh). -/
theorem c6_save_checkpoint_frame (s : TrainerState) (e : ℕ) (step : ℤ)
    (l : ℚ) (t : ℕ) :
    (s.checkpoint_dir = none → save_checkpoint s e step l t = s)
    ∧ (∀ d, s.checkpoint_dir = some d →
        (∀ q ∈ s.store, q.1 ≠ checkpointName e step t) →
        save_checkpoint s e step l t =
          { s with store := s.store ++
              [(checkpointName e step t,
                ⟨e, s.model_state, s.optimizer_state, l⟩)] }) := by
  constructor
  · intro h
    rw [save_checkpoint, h]
  · intro d hd hfresh
    have hany : s.store.any (fun q => q.1 == checkpointName e step t) = false := by
      rw [List.any_eq_false]
      intro q hq
      simpa using hfresh q hq
    simp only [save_checkpoint, hd, writeFile, hany]
    simp

/-- Witness for C6: a configured directory holding one old checkpoint,
and a state with no directory. -/
theorem c6_save_checkpoint_frame_witness :
    save_checkpoint ⟨0, 5, 10, none, 7, 8, [("old.pt", ⟨1, 2, 3, 4⟩)]⟩
        3 (-1) 6 9
      = ⟨0, 5, 10, none, 7, 8, [("old.pt", ⟨1, 2, 3, 4⟩)]⟩
    ∧ save_checkpoint ⟨0, 5, 10, some "ckpt", 7, 8, [("old.pt", ⟨1, 2, 3, 4⟩)]⟩
        3 (-1) 6 9
      = ⟨0, 5, 10, some "ckpt", 7, 8,
          [("old.pt", ⟨1, 2, 3, 4⟩)] ++ [(checkpointName 3 (-1) 9, ⟨3, 7, 8, 6⟩)]⟩ :=
  ⟨(c6_save_checkpoint_frame _ 3 (-1) 6 9).1 rfl,
   (c6_save_checkpoint_frame _ 3 (-1) 6 9).2 "ckpt" rfl (by decide)⟩

/- ### C1 and C10: the epoch loop of `run` -/

theorem save_checkpoint_print_every (s : TrainerState) (e : ℕ) (step : ℤ)
    (l : ℚ) (t : ℕ) :
    (save_checkpoint s e step l t).print_every = s.print_every := by
  cases hd : s.checkpoint_dir <;> simp [save_checkpoint, hd]

theorem runAux_succ (lossesOf : ℕ → List BatchLoss) (ts : ℕ → ℕ)
    (fuel e : ℕ) (s : TrainerState) :
    runAux lossesOf ts (fuel + 1) e s =
      match (train e s.print_every (lossesOf e)).2 with
      | none => none
      | some loss =>
        match runAux lossesOf ts fuel (e + 1)
          (save_checkpoint { s with current_epoch := e } e (-1) loss (ts e)) with
        | none => none
        | some (s3, evs) => some (s3,
            RunEvent.trainEv e (train e s.print_every (lossesOf e)).1
              :: RunEvent.saveEv e (-1) loss :: evs) := rfl

theorem runAux_spec (lossesOf : ℕ → List BatchLoss) (ts : ℕ → ℕ)
    (hne : ∀ e, lossesOf e ≠ []) (pe : ℕ) :
    ∀ (fuel e : ℕ) (s : TrainerState), s.print_every = pe →
    ∃ s2, runAux lossesOf ts fuel e s = some (s2,
      (List.range' e fuel).flatMap (fun ep =>
        [RunEvent.trainEv ep (train ep pe (lossesOf ep)).1,
         RunEvent.saveEv ep (-1) (trainLoss ep pe (lossesOf ep))])) := by
  intro fuel
  induction fuel with
  | zero => intro e s _; exact ⟨s, rfl⟩
  | succ fuel ih =>
    intro e s hpe
    obtain ⟨s2, hs2⟩ := ih (e + 1)
      (save_checkpoint { s with current_epoch := e } e (-1)
        (trainLoss e pe (lossesOf e)) (ts e))
      (by rw [save_checkpoint_print_every]; exact hpe)
    refine ⟨s2, ?_⟩
    have htr : (train e pe (lossesOf e)).2
        = some (trainLoss e pe (lossesOf e)) :=
      train_snd_eq _ _ _ (hne e)
    rw [runAux_succ, hpe, htr]
    dsimp only
    rw [hpe] at hs2
    rw [hs2]
    dsimp only
    rw [List.range'_succ]
    rfl

/-- C1: `run()` iterates epochs from the current value of
`current_epoch` up to the configured epoch count (exclusive), invoking
`train` then `save_checkpoint` once per epoch; and for every
checkpoint record with stored epoch `e`, `load_checkpoint` sets
`current_epoch` to `e`, so a subsequent `run()` begins its epoch
iteration at `e` itself, not `e + 1`. -/
theorem c1_resume_run (lossesOf : ℕ → List BatchLoss) (ts : ℕ → ℕ)
    (hne : ∀ e, lossesOf e ≠ []) :
    (∀ s : TrainerState, ∃ s3 evs, run lossesOf ts s = some (s3, evs) ∧
      evs = (List.range' s.current_epoch (s.epochs - s.current_epoch)).flatMap
        (fun e =>
          [RunEvent.trainEv e (train e s.print_every (lossesOf e)).1,
           RunEvent.saveEv e (-1) (trainLoss e s.print_every (lossesOf e))]))
    ∧ (∀ (s : TrainerState) (path : String) (c : Checkpoint),
        lookupStore s.store path = some c →
        ∃ s2, load_checkpoint s path = some s2 ∧
          s2.current_epoch = c.epoch ∧
          ∃ s3 evs, run lossesOf ts s2 = some (s3, evs) ∧
            evs = (List.range' c.epoch (s.epochs - c.epoch)).flatMap (fun e =>
              [RunEvent.trainEv e (train e s.print_every (lossesOf e)).1,
               RunEvent.saveEv e (-1)
                 (trainLoss e s.print_every (lossesOf e))])) := by
  constructor
  · intro s
    obtain ⟨s3, h⟩ := runAux_spec lossesOf ts hne s.print_every
      (s.epochs - s.current_epoch) s.current_epoch s rfl
    exact ⟨s3, _, h, rfl⟩
  · intro s path c hfind
    refine ⟨{ s with current_epoch := c.epoch, model_state := c.model_state_dict, optimizer_state := c.optimizer_state_dict }, ?_, rfl, ?_⟩
    · rw [load_checkpoint, hfind]
    · obtain ⟨s3, h⟩ := runAux_spec lossesOf ts hne s.print_every
        (s.epochs - c.epoch) c.epoch
        { s with current_epoch := c.epoch, model_state := c.model_state_dict, optimizer_state := c.optimizer_state_dict } rfl
      exact ⟨s3, _, h, rfl⟩

/-- Witness for C1: a store holding a checkpoint saved at epoch 3 in a
5-epoch configuration, with a one-batch loader every epoch. -/
theorem c1_resume_run_witness :
    ∃ s2, load_checkpoint ⟨0, 5, 10, some "d", 7, 8, [("ck", ⟨3, 1, 2, 0⟩)]⟩
        "ck" = some s2 ∧
      s2.current_epoch = (⟨3, 1, 2, 0⟩ : Checkpoint).epoch ∧
      ∃ s3 evs, run (fun _ => [⟨1, 2⟩]) (fun _ => 0) s2 = some (s3, evs) ∧
        evs = (List.range' (⟨3, 1, 2, 0⟩ : Checkpoint).epoch
            ((⟨0, 5, 10, some "d", 7, 8,
              [("ck", ⟨3, 1, 2, 0⟩)]⟩ : TrainerState).epochs
              - (⟨3, 1, 2, 0⟩ : Checkpoint).epoch)).flatMap (fun e =>
          [RunEvent.trainEv e (train e
            (⟨0, 5, 10, some "d", 7, 8,
              [("ck", ⟨3, 1, 2, 0⟩)]⟩ : TrainerState).print_every
            [⟨1, 2⟩]).1,
           RunEvent.saveEv e (-1) (trainLoss e
            (⟨0, 5, 10, some "d", 7, 8,
              [("ck", ⟨3, 1, 2, 0⟩)]⟩ : TrainerState).print_every
            [⟨1, 2⟩])]) :=
  (c1_resume_run (fun _ => [⟨1, 2⟩]) (fun _ => 0)
      (fun _ => List.cons_ne_nil _ _)).2
    ⟨0, 5, 10, some "d", 7, 8, [("ck", ⟨3, 1, 2, 0⟩)]⟩ "ck" ⟨3, 1, 2, 0⟩
    (by decide)

theorem save_checkpoint_store_mem (s : TrainerState) (e : ℕ) (step : ℤ)
    (l : ℚ) (t : ℕ) (nm : String) (c : Checkpoint)
    (hmem : (nm, c) ∈ (save_checkpoint s e step l t).store) :
    (nm, c) ∈ s.store ∨
      (nm = checkpointName e step t
        ∧ c = ⟨e, s.model_state, s.optimizer_state, l⟩) := by
  cases hd : s.checkpoint_dir with
  | none =>
    rw [save_checkpoint, hd] at hmem
    exact Or.inl hmem
  | some d =>
    rw [save_checkpoint, hd] at hmem
    dsimp only at hmem
    rw [writeFile] at hmem
    by_cases hany : s.store.any (fun q => q.1 == checkpointName e step t)
    · rw [if_pos hany] at hmem
      obtain ⟨q, hq, heq⟩ := List.mem_map.mp hmem
      by_cases hqn : q.1 == checkpointName e step t
      · rw [if_pos hqn] at heq
        right
        have h1 := congrArg Prod.fst heq
        have h2 := congrArg Prod.snd heq
        exact ⟨h1.symm, h2.symm⟩
      · rw [if_neg hqn] at heq
        exact Or.inl (heq ▸ hq)
    · rw [if_neg hany] at hmem
      rcases List.mem_append.mp hmem with hin | hin
      · exact Or.inl hin
      · right
        have := List.mem_singleton.mp hin
        have h1 := congrArg Prod.fst this
        have h2 := congrArg Prod.snd this
        exact ⟨h1, h2⟩

theorem runAux_store_mem (lossesOf : ℕ → List BatchLoss) (ts : ℕ → ℕ) :
    ∀ (fuel e : ℕ) (s s3 : TrainerState) (evs : List RunEvent),
    runAux lossesOf ts fuel e s = some (s3, evs) →
    ∀ (nm : String) (c : Checkpoint), (nm, c) ∈ s3.store →
    (nm, c) ∈ s.store ∨ ∃ t : ℕ, nm = checkpointName c.epoch (-1) t := by
  intro fuel
  induction fuel with
  | zero =>
    intro e s s3 evs h nm c hmem
    rw [show runAux lossesOf ts 0 e s = some (s, []) from rfl] at h
    obtain ⟨h1, _⟩ := Prod.mk.injEq .. ▸ Option.some.inj h
    exact Or.inl (h1 ▸ hmem)
  | succ fuel ih =>
    intro e s s3 evs h nm c hmem
    rw [runAux_succ] at h
    cases htr : (train e s.print_every (lossesOf e)).2 with
    | none => rw [htr] at h; exact absurd h (by simp)
    | some loss =>
      rw [htr] at h
      dsimp only at h
      cases hrec : runAux lossesOf ts fuel (e + 1)
          (save_checkpoint { s with current_epoch := e } e (-1) loss (ts e))
        with
      | none => rw [hrec] at h; exact absurd h (by simp)
      | some pr =>
        obtain ⟨s4, evs2⟩ := pr
        rw [hrec] at h
        dsimp only at h
        have h1 : s4 = s3 := congrArg Prod.fst (Option.some.inj h)
        rcases ih (e + 1) _ s4 evs2 hrec nm c (h1 ▸ hmem) with hin | hpat
        · rcases save_checkpoint_store_mem _ _ _ _ _ _ _ hin with hin2 | ⟨hnm, hc⟩
          · exact Or.inl hin2
          · right
            refine ⟨ts e, ?_⟩
            rw [hnm, hc]
        · exact Or.inr hpat

theorem checkpointName_step_neg_one (e t : ℕ) :
    checkpointName e (-1) t
      = "bert_epoch" ++ toString e ++ "_step-1_" ++ toString t ++ ".pt" := by
  rw [checkpointName]
  rw [show toString (-1 : ℤ) = "-1" by decide]
  rw [String.append_assoc ("bert_epoch" ++ toString e) "_step" "-1"]
  rw [String.append_assoc ("bert_epoch" ++ toString e) ("_step" ++ "-1") "_"]
  rw [show ("_step" ++ "-1") ++ "_" = "_step-1_" by decide]

/-- C10: every checkpoint created by `run()` is saved with `step = -1`:
each per-epoch save event carries step `-1`, and every file `run` adds
to the checkpoint directory is named
`bert_epoch<E>_step-1_<unixtime>.pt`. -/
theorem c10_run_step_minus_one (lossesOf : ℕ → List BatchLoss) (ts : ℕ → ℕ)
    (hne : ∀ e, lossesOf e ≠ []) (s : TrainerState) :
    ∃ s3 evs, run lossesOf ts s = some (s3, evs)
      ∧ (∀ (e : ℕ) (step : ℤ) (l : ℚ),
          RunEvent.saveEv e step l ∈ evs → step = -1)
      ∧ (∀ (nm : String) (c : Checkpoint), (nm, c) ∈ s3.store →
          (nm, c) ∈ s.store ∨
          ∃ t : ℕ, nm = "bert_epoch" ++ toString c.epoch ++ "_step-1_"
            ++ toString t ++ ".pt") := by
  obtain ⟨s3, hrun⟩ := runAux_spec lossesOf ts hne s.print_every
    (s.epochs - s.current_epoch) s.current_epoch s rfl
  refine ⟨s3, _, hrun, ?_, ?_⟩
  · intro e step l hmem
    rw [List.mem_flatMap] at hmem
    obtain ⟨ep, _, hmem2⟩ := hmem
    simp only [List.mem_cons, List.not_mem_nil, or_false] at hmem2
    rcases hmem2 with h | h
    · exact RunEvent.noConfusion h
    · simp only [RunEvent.saveEv.injEq] at h
      exact h.2.1
  · intro nm c hmem
    rcases runAux_store_mem lossesOf ts _ _ _ _ _ hrun nm c hmem
      with hin | ⟨t, hpat⟩
    · exact Or.inl hin
    · right
      exact ⟨t, by rw [hpat, checkpointName_step_neg_one]⟩

/-- Witness for C10: a two-epoch run with a configured checkpoint
directory starting from an empty store. -/
theorem c10_run_step_minus_one_witness :
    ∃ s3 evs, run (fun _ => [⟨1, 2⟩]) (fun _ => 0)
        ⟨3, 5, 10, some "d", 7, 8, []⟩ = some (s3, evs)
      ∧ (∀ (e : ℕ) (step : ℤ) (l : ℚ),
          RunEvent.saveEv e step l ∈ evs → step = -1)
      ∧ (∀ (nm : String) (c : Checkpoint), (nm, c) ∈ s3.store →
          (nm, c) ∈ (⟨3, 5, 10, some "d", 7, 8, []⟩ : TrainerState).store ∨
          ∃ t : ℕ, nm = "bert_epoch" ++ toString c.epoch ++ "_step-1_"
            ++ toString t ++ ".pt") :=
  c10_run_step_minus_one (fun _ => [⟨1, 2⟩]) (fun _ => 0)
    (fun _ => List.cons_ne_nil _ _) ⟨3, 5, 10, some "d", 7, 8, []⟩
